import Mathlib

/-!
Verification of the water-level-sensor firmware core against its specification.

The development shallowly embeds the measurement-and-ring-storage subsystem:

* `storage.h` — the flash-backed circular record log (`_storageInitRing`,
  `_storageWriteRing`, `_storageReadRing`, `storageClear`), modelled as pure
  functions on an explicit file state (`Option RingFile`, `none` = missing
  file).  C `float` fields are modelled as exact rationals, `uint16`/`uint32`
  header fields and timestamps as `Nat` (all source paths keep them far below
  their wrap-around, which is noted where it matters).
* `sensor.h` — median distance sampling (`measureDistance`), level/volume
  derivation (`computeLevel`) and the inter-cycle EMA filter (`doMeasure`).
* `webserver.h` — the trend statistics (`computeTrendStats`) and event
  detection (`buildRecentEvents`) computed from the ring logs.
-/

/-- One stored record: `uint32 ts`, `float level`, `float volume`,
`float temp_c` (`NAN` = unavailable, modelled as `none`).
Mirrors `HistRecord` in `storage.h`. -/
structure HistRecord where
  ts : Nat
  level : ℚ
  volume : ℚ
  temp : Option ℚ
deriving DecidableEq, Repr

/-- The whole on-flash ring file: the 4-byte header (`uint16 head`,
`uint16 count`) followed by the record slots actually present in the file.
The file size is `4 + 16 * recs.length` bytes, so "file has the wrong size"
is `recs.length ≠ maxRec`. -/
structure RingFile where
  hdrHead : Nat
  hdrCount : Nat
  recs : List HistRecord
deriving DecidableEq, Repr

/-- The "never written" sentinel slot `{0, 0, 0, NAN}` used by
`_storageInitRing` to pre-allocate the file. -/
def blankRec : HistRecord := ⟨0, 0, 0, none⟩

/-- A freshly created blank store: header `{0, 0}` and `maxRec` sentinel
records, as written by the creation branch of `_storageInitRing`. -/
def blankFile (maxRec : Nat) : RingFile :=
  ⟨0, 0, List.replicate maxRec blankRec⟩

/-- The structural validity check performed by `_storageInitRing` /
`storageValidateRingFile` / `_storageReadRing`: correct file size,
`head < maxRec` and `count ≤ maxRec`. -/
def ringValid (maxRec : Nat) (f : RingFile) : Prop :=
  f.recs.length = maxRec ∧ f.hdrHead < maxRec ∧ f.hdrCount ≤ maxRec

instance (maxRec : Nat) (f : RingFile) : Decidable (ringValid maxRec f) :=
  inferInstanceAs (Decidable (_ ∧ _ ∧ _))

/-- `_storageInitRing(path, maxRec)` from `storage.h`: if the file exists and
is structurally valid it is left untouched; otherwise it is removed and a
blank store (header `{0,0}` + `maxRec` sentinel records) is created.
The model assumes file creation succeeds (`LittleFS.open(path, "w")` does not
fail), so the result is always `some`. -/
def _storageInitRing (maxRec : Nat) (fs : Option RingFile) : Option RingFile :=
  match fs with
  | some f => if ringValid maxRec f then some f else some (blankFile maxRec)
  | none => some (blankFile maxRec)

/-- `_storageWriteRing(path, maxRec, s)` from `storage.h`: open (creating via
init when the file is missing), re-init when the header violates
`head < maxRec ∧ count ≤ maxRec`, write the record at slot `head`, then
advance `head = (head+1) % maxRec` and saturate `count` at `maxRec`. -/
def _storageWriteRing (maxRec : Nat) (r : HistRecord) (fs : Option RingFile) :
    Option RingFile :=
  let f0 := match fs with
    | none => blankFile maxRec
    | some f => f
  let f1 := if maxRec ≤ f0.hdrHead ∨ maxRec < f0.hdrCount then blankFile maxRec else f0
  some { hdrHead := (f1.hdrHead + 1) % maxRec,
         hdrCount := if f1.hdrCount < maxRec then f1.hdrCount + 1 else f1.hdrCount,
         recs := f1.recs.set f1.hdrHead r }

/-- `_storageReadRing(path, maxRec, out, n)` from `storage.h`: missing file
reads as empty; a wrong-sized file or an invariant-violating header causes
remove + re-init and an empty result; otherwise up to `min(count, n)` records
are returned newest-first walking backward from `head - 1`.
Returns the record list together with the post-call file state. -/
def _storageReadRing (maxRec n : Nat) (fs : Option RingFile) :
    List HistRecord × Option RingFile :=
  match fs with
  | none => ([], none)
  | some f =>
    if ¬ ringValid maxRec f then ([], _storageInitRing maxRec none)
    else if f.hdrCount = 0 then ([], some f)
    else
      let cnt := min f.hdrCount n
      ((List.range cnt).map
         (fun i => f.recs.getD ((f.hdrHead + maxRec - 1 - i) % maxRec) blankRec),
       some f)

/-- `storageClear()` restricted to one ring: remove the file and re-create it
blank via `storageInit`. -/
def storageClearRing (maxRec : Nat) : Option RingFile :=
  _storageInitRing maxRec none

/-- A record carrying only a timestamp (level/volume 0, no temperature),
used by the concrete ring-log scenarios. -/
def mkRec (t : Nat) : HistRecord := ⟨t, 0, 0, none⟩

/-- The concrete store of the capacity-4 FIFO scenario: a blank capacity-4
ring after appending records with timestamps 1, 2, 3, 4, 5 in order. -/
def c1Store : Option RingFile :=
  [mkRec 1, mkRec 2, mkRec 3, mkRec 4, mkRec 5].foldl
    (fun fs r => _storageWriteRing 4 r fs) (_storageInitRing 4 none)

theorem blankFile_valid (m : Nat) (hm : 0 < m) : ringValid m (blankFile m) := by
  refine ⟨?_, hm, Nat.zero_le m⟩
  simp [blankFile]

theorem ringPrevIdx (m h : Nat) (hm : h < m) : ((h + 1) % m + m - 1) % m = h := by
  rcases Nat.lt_or_ge (h + 1) m with hlt | hge
  · rw [Nat.mod_eq_of_lt hlt]
    have he : h + 1 + m - 1 = h + m := by omega
    rw [he, Nat.add_mod_right, Nat.mod_eq_of_lt hm]
  · have he : h + 1 = m := by omega
    rw [he, Nat.mod_self]
    have he2 : 0 + m - 1 = h := by omega
    rw [he2, Nat.mod_eq_of_lt hm]

theorem getD_set_of_lt (l : List HistRecord) (i : Nat) (a : HistRecord)
    (h : i < l.length) : (l.set i a).getD i blankRec = a := by
  rw [List.getD_eq_getElem?_getD, List.getElem?_set_self, Option.getD_some]
  simpa using h

/-- Append on a valid store touches neither the corruption branch nor any slot
but `head`: the result is `head+1 mod m`, saturated `count`, `recs.set head r`. -/
theorem writeRing_valid_eq (m : Nat) (f : RingFile) (r : HistRecord)
    (hv : ringValid m f) :
    _storageWriteRing m r (some f) =
      some ⟨(f.hdrHead + 1) % m,
            if f.hdrCount < m then f.hdrCount + 1 else f.hdrCount,
            f.recs.set f.hdrHead r⟩ := by
  have hnc : ¬ (m ≤ f.hdrHead ∨ m < f.hdrCount) := by
    rcases hv with ⟨-, h1, h2⟩
    omega
  simp [_storageWriteRing, hnc]

/-- Reading back 1 record from a valid, non-empty store returns the slot just
before `head`. -/
theorem readRing_one (m : Nat) (g : RingFile) (hv : ringValid m g)
    (hc : g.hdrCount ≠ 0) :
    (_storageReadRing m 1 (some g)).1 =
      [g.recs.getD ((g.hdrHead + m - 1) % m) blankRec] := by
  have hmin : min g.hdrCount 1 = 1 := by omega
  simp [_storageReadRing, hv, hc, hmin, List.range_succ]

/-- C1. RingLog round-trip and FIFO eviction: appending a record `r` to any
capacity-`m` store satisfying the header invariants and then reading the
latest 1 record returns exactly `[r]`, while `count` stays `≤ m`, saturates at
`m`, and increments below saturation; concretely, a capacity-4 ring fed
records with timestamps 1,2,3,4,5 answers `readLatest(4)` with timestamps
`[5,4,3,2]` newest-first, the record with timestamp 1 is no longer returned,
and `count` has saturated at 4. -/
theorem c1_ringlog_roundtrip_fifo (m : Nat) (hm : 0 < m) (f : RingFile)
    (hv : ringValid m f) (r : HistRecord) :
    (∃ g, _storageWriteRing m r (some f) = some g
       ∧ (_storageReadRing m 1 (some g)).1 = [r]
       ∧ g.hdrCount ≤ m
       ∧ (f.hdrCount = m → g.hdrCount = m)
       ∧ (f.hdrCount < m → g.hdrCount = f.hdrCount + 1))
    ∧ ((_storageReadRing 4 4 c1Store).1.map HistRecord.ts = [5, 4, 3, 2]
       ∧ (∀ q ∈ (_storageReadRing 4 4 c1Store).1, q.ts ≠ 1)
       ∧ Option.map RingFile.hdrCount c1Store = some 4) := by
  obtain ⟨hlen, hhead, hcount⟩ := hv
  refine ⟨⟨⟨(f.hdrHead + 1) % m,
            if f.hdrCount < m then f.hdrCount + 1 else f.hdrCount,
            f.recs.set f.hdrHead r⟩,
          writeRing_valid_eq m f r ⟨hlen, hhead, hcount⟩, ?_, ?_, ?_, ?_⟩, ?_⟩
  · have hv' : ringValid m ⟨(f.hdrHead + 1) % m,
        if f.hdrCount < m then f.hdrCount + 1 else f.hdrCount,
        f.recs.set f.hdrHead r⟩ := by
      refine ⟨by simpa using hlen, Nat.mod_lt _ hm, ?_⟩
      dsimp only
      split <;> omega
    rw [readRing_one m _ hv' (by dsimp only; split <;> omega)]
    dsimp only
    rw [ringPrevIdx m f.hdrHead hhead, getD_set_of_lt f.recs f.hdrHead r (hlen ▸ hhead)]
  · dsimp only; split <;> omega
  · intro h; dsimp only; split <;> omega
  · intro h; dsimp only; split <;> omega
  · exact ⟨by decide, by decide, by decide⟩

theorem c1_witness :
    ∃ g, _storageWriteRing 4 (mkRec 9) (some (blankFile 4)) = some g
      ∧ (_storageReadRing 4 1 (some g)).1 = [mkRec 9]
      ∧ g.hdrCount ≤ 4
      ∧ ((blankFile 4).hdrCount = 4 → g.hdrCount = 4)
      ∧ ((blankFile 4).hdrCount < 4 → g.hdrCount = (blankFile 4).hdrCount + 1) :=
  (c1_ringlog_roundtrip_fifo 4 (by decide) (blankFile 4) (by decide) (mkRec 9)).1

/-- C5. Read-time corruption recovery: for every store file whose size is
wrong or whose header violates `head < capacity` or `count ≤ capacity`,
`readLatest` returns 0 records and leaves the store reinitialized to the
blank valid store (the read is a total function — no crash is modelled). -/
theorem c5_read_corruption_recovery (m n : Nat) (hm : 0 < m) (f : RingFile)
    (hcorr : ¬ ringValid m f) :
    _storageReadRing m n (some f) = ([], some (blankFile m))
      ∧ ringValid m (blankFile m) := by
  refine ⟨?_, blankFile_valid m hm⟩
  simp [_storageReadRing, hcorr, _storageInitRing]

theorem c5_witness :
    _storageReadRing 4 3 (some ⟨7, 9, [mkRec 1]⟩) = ([], some (blankFile 4))
      ∧ ringValid 4 (blankFile 4) :=
  c5_read_corruption_recovery 4 3 (by decide) ⟨7, 9, [mkRec 1]⟩ (by decide)

/-- C6. Structural invariant preservation: starting from any store satisfying
`head < capacity`, `count ≤ capacity` and the exact file size, each of
`init`, `append` and `clear` produces a store satisfying the same invariants
(`recs.length = capacity` is exactly "file size = header + capacity × 16"). -/
theorem c6_ring_invariants (m : Nat) (hm : 0 < m) (f : RingFile)
    (hv : ringValid m f) (r : HistRecord) :
    (∃ g, _storageInitRing m (some f) = some g ∧ ringValid m g)
    ∧ (∃ g, _storageWriteRing m r (some f) = some g ∧ ringValid m g)
    ∧ (∃ g, storageClearRing m = some g ∧ ringValid m g) := by
  obtain ⟨hlen, hhead, hcount⟩ := hv
  refine ⟨⟨f, ?_, ⟨hlen, hhead, hcount⟩⟩, ⟨_, writeRing_valid_eq m f r ⟨hlen, hhead, hcount⟩, ?_⟩,
          ⟨blankFile m, rfl, blankFile_valid m hm⟩⟩
  · simp [_storageInitRing, ringValid, hlen, hhead, hcount]
  · refine ⟨by simpa using hlen, Nat.mod_lt _ hm, ?_⟩
    dsimp only
    split <;> omega

theorem c6_witness :
    (∃ g, _storageInitRing 4 (some (blankFile 4)) = some g ∧ ringValid 4 g)
    ∧ (∃ g, _storageWriteRing 4 (mkRec 2) (some (blankFile 4)) = some g ∧ ringValid 4 g)
    ∧ (∃ g, storageClearRing 4 = some g ∧ ringValid 4 g) :=
  c6_ring_invariants 4 (by decide) (blankFile 4) (by decide) (mkRec 2)

/-- C7. Init idempotence: on a store that is already valid (correct size and
header invariants), `init` is a no-op — it returns the very same file, so
neither the header nor any stored record changes. -/
theorem c7_init_idempotent (m : Nat) (f : RingFile) (hv : ringValid m f) :
    _storageInitRing m (some f) = some f := by
  simp [_storageInitRing, hv]

theorem c7_witness :
    _storageInitRing 4 (some ⟨2, 3, [mkRec 5, mkRec 6, mkRec 7, mkRec 8]⟩) =
      some ⟨2, 3, [mkRec 5, mkRec 6, mkRec 7, mkRec 8]⟩ :=
  c7_init_idempotent 4 ⟨2, 3, [mkRec 5, mkRec 6, mkRec 7, mkRec 8]⟩ (by decide)

/-- C10. Append-time self-healing persists the in-flight record: appending `r`
to a store whose header violates the invariants (`head ≥ capacity` or
`count > capacity`) first reinitializes the store to blank and then still
writes `r`, leaving a valid store with `count = 1` whose single readable
record is exactly `r`. -/
theorem c10_selfheal_append (m : Nat) (hm : 0 < m) (f : RingFile)
    (r : HistRecord) (hcorr : m ≤ f.hdrHead ∨ m < f.hdrCount) :
    ∃ g, _storageWriteRing m r (some f) = some g
      ∧ g.hdrCount = 1 ∧ ringValid m g
      ∧ (_storageReadRing m 1 (some g)).1 = [r] := by
  have hcnt : (if (blankFile m).hdrCount < m then (blankFile m).hdrCount + 1
      else (blankFile m).hdrCount) = 1 := by
    simp [blankFile, hm]
  refine ⟨⟨(0 + 1) % m, 1, ((blankFile m).recs).set 0 r⟩, ?_, rfl, ?_, ?_⟩
  · simp only [_storageWriteRing, if_pos hcorr]
    simp [blankFile, hm]
  · refine ⟨?_, Nat.mod_lt _ hm, hm⟩
    simp [blankFile]
  · have hv' : ringValid m ⟨(0 + 1) % m, 1, ((blankFile m).recs).set 0 r⟩ :=
      ⟨by simp [blankFile], Nat.mod_lt _ hm, hm⟩
    rw [readRing_one m _ hv' (by simp)]
    dsimp only
    rw [ringPrevIdx m 0 hm, getD_set_of_lt _ 0 r (by simp [blankFile, hm])]

theorem c10_witness :
    ∃ g, _storageWriteRing 4 (mkRec 9) (some ⟨7, 11, [mkRec 1]⟩) = some g
      ∧ g.hdrCount = 1 ∧ ringValid 4 g
      ∧ (_storageReadRing 4 1 (some g)).1 = [mkRec 9] :=
  c10_selfheal_append 4 (by decide) ⟨7, 11, [mkRec 1]⟩ (mkRec 9) (by decide)

/-- One step of the insertion sort in `measureDistance` (`sensor.h`): insert
`x` into an already sorted prefix, shifting the strictly greater elements. -/
def insertSorted (x : ℚ) : List ℚ → List ℚ
  | [] => [x]
  | y :: ys => if x < y then x :: y :: ys else y :: insertSorted x ys

/-- The full insertion sort of the accepted sample buffer, processing the
samples left to right as the C loop does. -/
def sortAccepted (buf : List ℚ) : List ℚ :=
  buf.foldl (fun acc x => insertSorted x acc) []

/-- `measureDistance` (`sensor.h`), as a function of the raw pulse-echo
outcomes of one invocation (`-1` = echo timeout): discard physically
implausible readings (`≤ 0` or `≥ 500` cm), return `-1`/`none` when no sample
is accepted, else insertion-sort and return the median (middle value for an
odd count, average of the two middle values for an even count). -/
def measureDistance (samples : List ℚ) : Option ℚ :=
  let buf := samples.filter (fun d => decide (0 < d ∧ d < 500))
  if buf.length = 0 then none
  else
    let s := sortAccepted buf
    let ok := buf.length
    if ok % 2 = 1 then some (s.getD (ok / 2) 0)
    else some ((s.getD (ok / 2 - 1) 0 + s.getD (ok / 2) 0) / 2)

/-- The textbook median of a sample set, stated with Mathlib's insertion sort
as the reference sorted order: middle element for odd size, average of the
two middle elements for even size. -/
def textbookMedian (l : List ℚ) : ℚ :=
  let s := List.insertionSort (· ≤ ·) l
  if l.length % 2 = 1 then s.getD (l.length / 2) 0
  else (s.getD (l.length / 2 - 1) 0 + s.getD (l.length / 2) 0) / 2

theorem insertSorted_perm (x : ℚ) (l : List ℚ) :
    List.Perm (insertSorted x l) (x :: l) := by
  induction l with
  | nil => simp [insertSorted]
  | cons y ys ih =>
    by_cases h : x < y
    · simp [insertSorted, h]
    · simp only [insertSorted, if_neg h]
      exact (ih.cons y).trans (List.Perm.swap x y ys)

theorem insertSorted_sorted (x : ℚ) (l : List ℚ) (hl : List.Sorted (· ≤ ·) l) :
    List.Sorted (· ≤ ·) (insertSorted x l) := by
  induction l with
  | nil => simp [insertSorted]
  | cons y ys ih =>
    rw [List.sorted_cons] at hl
    obtain ⟨hy, hys⟩ := hl
    by_cases h : x < y
    · rw [insertSorted, if_pos h, List.sorted_cons]
      refine ⟨?_, ?_⟩
      · intro b hb
        rcases List.mem_cons.mp hb with rfl | hb2
        · exact le_of_lt h
        · exact le_trans (le_of_lt h) (hy b hb2)
      · rw [List.sorted_cons]
        exact ⟨hy, hys⟩
    · rw [insertSorted, if_neg h, List.sorted_cons]
      refine ⟨?_, ih hys⟩
      intro b hb
      have hb' : b ∈ x :: ys := (insertSorted_perm x ys).mem_iff.mp hb
      rcases List.mem_cons.mp hb' with rfl | hb2
      · exact le_of_not_lt h
      · exact hy b hb2

theorem sortAccepted_go_perm :
    ∀ (l acc : List ℚ),
      List.Perm (l.foldl (fun a x => insertSorted x a) acc) (acc ++ l)
  | [], acc => by simp
  | x :: xs, acc => by
    simp only [List.foldl_cons]
    refine (sortAccepted_go_perm xs (insertSorted x acc)).trans ?_
    refine (((insertSorted_perm x acc).append_right xs).trans ?_)
    simpa using List.perm_middle.symm

theorem sortAccepted_go_sorted :
    ∀ (l acc : List ℚ), List.Sorted (· ≤ ·) acc →
      List.Sorted (· ≤ ·) (l.foldl (fun a x => insertSorted x a) acc)
  | [], _, h => by simpa using h
  | x :: xs, acc, h => by
    simp only [List.foldl_cons]
    exact sortAccepted_go_sorted xs _ (insertSorted_sorted x acc h)

theorem sortAccepted_eq_insertionSort (l : List ℚ) :
    sortAccepted l = List.insertionSort (· ≤ ·) l := by
  refine List.eq_of_perm_of_sorted ?_ ?_ (List.sorted_insertionSort (· ≤ ·) l)
  · exact ((sortAccepted_go_perm l []).trans (by simp)).trans
      (List.perm_insertionSort (· ≤ ·) l).symm
  · exact sortAccepted_go_sorted l [] (by simp)

/-- C3. Median aggregation: for every set of `k ≥ 1` accepted samples (each
strictly between 0 and 500 cm), `measureDistance` returns the textbook median
of those `k` values — the middle value for odd `k`, the average of the two
middle values for even `k`. -/
theorem c3_median_aggregation (l : List ℚ) (hne : l ≠ [])
    (hall : ∀ x ∈ l, 0 < x ∧ x < 500) :
    measureDistance l = some (textbookMedian l) := by
  have hfil : l.filter (fun d => decide (0 < d ∧ d < 500)) = l :=
    List.filter_eq_self.mpr (fun a ha => by simpa using hall a ha)
  have hlen0 : ¬ l.length = 0 := fun h => hne (List.length_eq_zero.mp h)
  simp only [measureDistance, textbookMedian, hfil, sortAccepted_eq_insertionSort,
    if_neg hlen0]
  split <;> rfl

theorem c3_witness :
    measureDistance [3, 1, 2] = some (textbookMedian [3, 1, 2]) :=
  c3_median_aggregation [3, 1, 2] (by decide) (by decide)

/-- Arduino's `constrain(amt, low, high)`. -/
def constrainQ (x lo hi : ℚ) : ℚ := if x < lo then lo else if hi < x then hi else x

/-- The EMA state update of `doMeasure` (`sensor.h`): a negative state means
"uninitialized" and is bootstrapped to the incoming distance without
blending; otherwise `smoothed = α·dist + (1−α)·smoothed` with
`α = constrain(ema_alpha, 0.01, 1.0)`. -/
def emaUpdate (alphaCfg ema dist : ℚ) : ℚ :=
  if ema < 0 then dist
  else
    let a := constrainQ alphaCfg (1/100) 1
    a * dist + (1 - a) * ema

/-- C4. EMA smoothing: the first valid sample initializes the state to
exactly that distance; afterwards the state is updated as
`α·dist + (1−α)·state` with `α` clamped to `[0.01, 1]`; at `α = 1` the result
is the raw new sample, and at `α = 0.01` the state moves by at most 1% of the
delta toward the new sample. -/
theorem c4_ema_smoothing (alphaCfg ema d : ℚ) :
    (ema < 0 → emaUpdate alphaCfg ema d = d)
    ∧ (0 ≤ ema →
        1/100 ≤ constrainQ alphaCfg (1/100) 1
        ∧ constrainQ alphaCfg (1/100) 1 ≤ 1
        ∧ emaUpdate alphaCfg ema d =
            constrainQ alphaCfg (1/100) 1 * d + (1 - constrainQ alphaCfg (1/100) 1) * ema)
    ∧ (0 ≤ ema → emaUpdate 1 ema d = d)
    ∧ (0 ≤ ema → |emaUpdate (1/100) ema d - ema| ≤ 1/100 * |d - ema|) := by
  refine ⟨fun h => by simp [emaUpdate, h], fun h => ⟨?_, ?_, ?_⟩, fun h => ?_, fun h => ?_⟩
  · unfold constrainQ
    split_ifs <;> linarith
  · unfold constrainQ
    split_ifs <;> linarith
  · rw [emaUpdate, if_neg (not_lt.mpr h)]
  · have ha : constrainQ 1 (1/100) 1 = 1 := by norm_num [constrainQ]
    rw [emaUpdate, if_neg (not_lt.mpr h)]
    simp only [ha]
    ring
  · have ha : constrainQ (1/100) (1/100) 1 = 1/100 := by norm_num [constrainQ]
    have he : emaUpdate (1/100) ema d - ema = 1/100 * (d - ema) := by
      rw [emaUpdate, if_neg (not_lt.mpr h)]
      simp only [ha]
      ring
    rw [he, abs_mul, abs_of_pos (show (0:ℚ) < 1/100 by norm_num)]

theorem c4_witness :
    emaUpdate (1/2) (-1) 7 = 7
    ∧ emaUpdate 1 5 7 = 7
    ∧ |emaUpdate (1/100) 5 7 - 5| ≤ 1/100 * |7 - 5| :=
  ⟨(c4_ema_smoothing (1/2) (-1) 7).1 (by norm_num),
   (c4_ema_smoothing 1 5 7).2.2.1 (by norm_num),
   (c4_ema_smoothing (1/100) 5 7).2.2.2 (by norm_num)⟩

/-- The calibration fields of `Config` consumed by the measurement core. -/
structure Config where
  empty_dist_cm : ℚ
  full_dist_cm : ℚ
  barrel_diam_cm : ℚ
  ema_alpha : ℚ
deriving DecidableEq, Repr

/-- `SensorData` (`sensor.h`), dropping the temperature field (collaborator
input, irrelevant to the verified claims); `timestamp` is stamped by the
caller and left 0 by `computeLevel`. -/
structure SensorData where
  distance_cm : ℚ
  level_pct : ℚ
  volume_liters : ℚ
  free_liters : ℚ
  total_liters : ℚ
  timestamp : Nat
  valid : Bool
deriving DecidableEq, Repr

/-- Arduino's `PI` constant as an exact rational. -/
def PI_RAT : ℚ := 31415926535897932384626433832795 / 10000000000000000000000000000000

/-- `computeLevel` (`sensor.h`): validity is `dist > 0`; with an invalid
distance or a non-positive calibration range all derived outputs are zero;
otherwise the percentage is clamped to `[0, 100]` and, when the barrel
diameter is known, `total = π·r²·h/1000`, `volume = total·pct/100`,
`free = total − volume`. -/
def computeLevel (c : Config) (dist : ℚ) : SensorData :=
  let valid := decide (0 < dist)
  let range := c.empty_dist_cm - c.full_dist_cm
  if ¬ (0 < dist) ∨ range ≤ 0 then
    ⟨dist, 0, 0, 0, 0, 0, valid⟩
  else
    let pct := (c.empty_dist_cm - dist) / range * 100
    let level := constrainQ pct 0 100
    if 0 < c.barrel_diam_cm then
      let r := c.barrel_diam_cm / 2
      let total := PI_RAT * r * r * range / 1000
      let vol := total * level / 100
      ⟨dist, level, vol, total - vol, total, 0, valid⟩
    else
      ⟨dist, level, 0, 0, 0, 0, valid⟩

/-- `doMeasure` (`sensor.h`) restricted to the distance/level core: given the
current EMA state and the `measureDistance` result (`dist < 0` = invalid),
produce the `SensorData` and the new EMA state.  An invalid distance holds
the last EMA (or 0 when uninitialized), recomputes the level from it and
forces `valid := false`; a valid distance updates the EMA first. -/
def doMeasure (c : Config) (ema dist : ℚ) : SensorData × ℚ :=
  if dist < 0 then
    ({ computeLevel c (if 0 < ema then ema else 0) with valid := false }, ema)
  else
    let ema' := emaUpdate c.ema_alpha ema dist
    (computeLevel c ema', ema')

/-- C8. Invalid-sample handling: when the sampler returns invalid the Reading
is marked invalid but its level/volume are recomputed from the last known
smoothed distance (the EMA state is kept, not discarded); when no prior
smoothing state exists (state still at its `-1` bootstrap value) the Reading
has `valid = false` and zero level and volume. -/
theorem c8_invalid_sample_handling (c : Config) (ema d : ℚ) (hd : d < 0) :
    ((doMeasure c ema d).1.valid = false
     ∧ (doMeasure c ema d).2 = ema
     ∧ (0 < ema →
         (doMeasure c ema d).1.level_pct = (computeLevel c ema).level_pct
         ∧ (doMeasure c ema d).1.volume_liters = (computeLevel c ema).volume_liters))
    ∧ (ema = -1 →
        (doMeasure c ema d).1.valid = false
        ∧ (doMeasure c ema d).1.level_pct = 0
        ∧ (doMeasure c ema d).1.volume_liters = 0) := by
  constructor
  · refine ⟨?_, ?_, fun h => ⟨?_, ?_⟩⟩
    · simp [doMeasure, hd]
    · simp [doMeasure, hd]
    · simp [doMeasure, hd, h]
    · simp [doMeasure, hd, h]
  · intro h
    subst h
    refine ⟨?_, ?_, ?_⟩ <;> norm_num [doMeasure, hd, computeLevel]

theorem c8_witness :
    (doMeasure ⟨110, 25, 51, 1/2⟩ (-1) (-1)).1.valid = false
    ∧ (doMeasure ⟨110, 25, 51, 1/2⟩ (-1) (-1)).1.level_pct = 0
    ∧ (doMeasure ⟨110, 25, 51, 1/2⟩ (-1) (-1)).1.volume_liters = 0 :=
  (c8_invalid_sample_handling ⟨110, 25, 51, 1/2⟩ (-1) (-1) (by norm_num)).2 rfl

/-- C's `roundf`: round half away from zero, as an integer. -/
def roundfQ (q : ℚ) : ℤ := if 0 ≤ q then (q + 1/2).floor else (q - 1/2).ceil

/-- The `roundf(x * 10.0f) / 10.0f` one-decimal rounding used throughout
`webserver.h`. -/
def round1 (q : ℚ) : ℚ := ((roundfQ (q * 10) : ℤ) : ℚ) / 10

/-- The loop state of the `feed` lambda in `computeTrendStats`
(`webserver.h`): previous record, window occupancy flags and bounds, and the
accumulated 24h/7d usages. -/
structure FeedState where
  havePrev : Bool
  prev : HistRecord
  have24 : Bool
  have7 : Bool
  first24 : Nat
  last24 : Nat
  first7 : Nat
  last7 : Nat
  used24 : ℚ
  used7 : ℚ
deriving Repr

def feedInit : FeedState := ⟨false, ⟨0, 0, 0, none⟩, false, false, 0, 0, 0, 0, 0, 0⟩

/-- The `feed` lambda of `computeTrendStats`: skip sentinel/future/too-old
records and records with negative (NaN) volume; update the 24h/7d window
bounds; for a chronological adjacent pair with `30s ≤ Δt ≤ 6h` accumulate a
volume decrease below `-0.3` into the window usages. -/
def feed (now since24 since7 : Nat) (st : FeedState) (rec : HistRecord) : FeedState :=
  if rec.ts = 0 ∨ now < rec.ts then st
  else if rec.ts < since7 then st
  else if ¬ 0 ≤ rec.volume then st
  else
    let st1 := if since24 ≤ rec.ts then
        { st with first24 := if st.have24 then st.first24 else rec.ts,
                  last24 := rec.ts, have24 := true }
      else st
    let st2 := if since7 ≤ rec.ts then
        { st1 with first7 := if st1.have7 then st1.first7 else rec.ts,
                   last7 := rec.ts, have7 := true }
      else st1
    let st3 :=
      if st2.havePrev = true ∧ st2.prev.ts < rec.ts ∧ 0 ≤ st2.prev.volume then
        let dt := rec.ts - st2.prev.ts
        if 30 ≤ dt ∧ dt ≤ 6 * 3600 then
          let dv := rec.volume - st2.prev.volume
          if dv < -(3/10) then
            { st2 with
              used24 := if since24 ≤ st2.prev.ts ∧ since24 ≤ rec.ts
                        then st2.used24 + -dv else st2.used24,
              used7 := if since7 ≤ st2.prev.ts ∧ since7 ≤ rec.ts
                       then st2.used7 + -dv else st2.used7 }
          else st2
        else st2
      else st2
    { st3 with prev := rec, havePrev := true }

/-- `TrendStats` (`webserver.h`); `NAN` floats are modelled as `none`. -/
structure TrendStats where
  ok : Bool
  used24_l : Option ℚ
  used7d_l : Option ℚ
  rate24_lpd : Option ℚ
  rate7d_lpd : Option ℚ
  span24_s : Nat
  span7d_s : Nat
  days_left : Option ℚ
  eta_empty_ts : Nat
deriving DecidableEq, Repr

/-- `computeTrendStats` (`webserver.h`) as a pure function of the current
reading and the two ring-log read results (`hbuf` hourly, `rbuf` recent, both
newest-first as `storageRead` returns them; the timestamp-keyed cache is a
memoization of this function and is not modelled).  Hourly points within the
last hour are skipped (superseded by the minute cache); both buffers are fed
oldest-first; the window usages, spans and day-rates are derived as in the
source, with rates preferred 24h-then-7d under the span/0.2 thresholds. -/
def computeTrendStats (s : SensorData) (hbuf rbuf : List HistRecord) : TrendStats :=
  if s.timestamp = 0 ∨ s.total_liters ≤ 0 ∨ s.volume_liters < 0 then
    ⟨false, none, none, none, none, 0, 0, none, 0⟩
  else
    let now := s.timestamp
    let since24 := now - 24 * 3600
    let since7 := now - 168 * 3600
    let recentSince := now - 3600
    let st0 := hbuf.reverse.foldl
      (fun st rec => if recentSince ≤ rec.ts then st else feed now since24 since7 st rec)
      feedInit
    let st := rbuf.reverse.foldl (feed now since24 since7) st0
    let used24_l := if st.have24 ∧ st.first24 < st.last24
      then some (round1 st.used24) else none
    let span24 := if st.have24 ∧ st.first24 < st.last24 then st.last24 - st.first24 else 0
    let rate24_lpd := if st.have24 ∧ st.first24 < st.last24
      then some (round1 (st.used24 * 86400 / ((st.last24 - st.first24 : Nat) : ℚ)))
      else none
    let used7d_l := if st.have7 ∧ st.first7 < st.last7
      then some (round1 st.used7) else none
    let span7 := if st.have7 ∧ st.first7 < st.last7 then st.last7 - st.first7 else 0
    let rate7d_lpd := if st.have7 ∧ st.first7 < st.last7
      then some (round1 (st.used7 * 86400 / ((st.last7 - st.first7 : Nat) : ℚ)))
      else none
    let cand7 := match rate7d_lpd with
      | some r7 => if 24 * 3600 ≤ span7 ∧ 1/5 < r7 then some r7 else none
      | none => none
    let useRate := match rate24_lpd with
      | some r24 => if 6 * 3600 ≤ span24 ∧ 1/5 < r24 then some r24 else cand7
      | none => cand7
    match useRate with
    | some r =>
      if 0 < s.volume_liters then
        ⟨true, used24_l, used7d_l, rate24_lpd, rate7d_lpd, span24, span7,
         some (round1 (s.volume_liters / r)),
         now + (s.volume_liters / r * 86400).floor.toNat⟩
      else ⟨true, used24_l, used7d_l, rate24_lpd, rate7d_lpd, span24, span7, none, 0⟩
    | none => ⟨true, used24_l, used7d_l, rate24_lpd, rate7d_lpd, span24, span7, none, 0⟩

/-- The current reading of the 24h trend scenario: volume 90 L of 200 L total
at time 1000000. -/
def c2_current : SensorData := ⟨0, 45, 90, 110, 200, 1000000, true⟩

/-- Older scenario record: volume 100 L, exactly 24 h before `c2_current`. -/
def c2_older : HistRecord := ⟨913600, 50, 100, none⟩

/-- Newer scenario record: volume 90 L at the current timestamp. -/
def c2_newer : HistRecord := ⟨1000000, 45, 90, none⟩

/-- Older record of the in-filter variant: volume 100 L, 6 h (21600 s, the
largest pair gap the scan accepts) before `c2_current`. -/
def c2_older6h : HistRecord := ⟨978400, 50, 100, none⟩

/-- C2 counterexample: feeding exactly two records 24 hours apart with
volumes 100 L then 90 L (Δt = 86400 s, Δv = −10) and nothing else in range
does NOT give `rate24 ≈ 10 L/day` and `used24 = 10`: the pair is ignored
because `Δt = 86400 s` exceeds the 6-hour pair-gap filter, so the computed
24h usage and rate are both 0. -/
theorem c2_counterexample :
    (computeTrendStats c2_current [c2_older] [c2_newer]).used24_l = some 0
    ∧ (computeTrendStats c2_current [c2_older] [c2_newer]).rate24_lpd = some 0
    ∧ (computeTrendStats c2_current [c2_older] [c2_newer]).used24_l ≠ some 10
    ∧ (computeTrendStats c2_current [c2_older] [c2_newer]).rate24_lpd ≠ some 10 := by
  with_unfolding_all decide

/-- C2 (amended). Two records 24 h apart with volumes 100 L then 90 L and
nothing else in the scan window yield `used24 = 0` and `rate24 = 0` (the
`Δt > 6h` gap filter discards the pair, while both records still bound the
24h span of 86400 s); the 10 L decrease is counted only when the pair lies
within the 6-hour gap filter — e.g. the same volumes 6 h apart give
`used24 = 10.0` and `rate24 = 40.0 L/day`. -/
theorem c2_trend_gap_filter :
    (computeTrendStats c2_current [c2_older] [c2_newer]).ok = true
    ∧ (computeTrendStats c2_current [c2_older] [c2_newer]).span24_s = 86400
    ∧ (computeTrendStats c2_current [c2_older] [c2_newer]).used24_l = some 0
    ∧ (computeTrendStats c2_current [c2_older] [c2_newer]).rate24_lpd = some 0
    ∧ (computeTrendStats c2_current [c2_older6h] [c2_newer]).used24_l = some 10
    ∧ (computeTrendStats c2_current [c2_older6h] [c2_newer]).rate24_lpd = some 40 := by
  with_unfolding_all decide

/-- The event classification of `buildRecentEvents` (`webserver.h`). -/
inductive EvType where
  | fill
  | draw
  | leak
deriving DecidableEq, Repr

/-- One detected event: end timestamp, type, accumulated volume delta and the
(maximum-magnitude) rate in L/hour. -/
structure EventRec where
  ts : Nat
  ty : EvType
  delta : ℚ
  rate : ℚ
deriving DecidableEq, Repr

/-- The threshold classification of one adjacent pair in `buildRecentEvents`:
`leak` when `Δv ≤ -4` and `rate ≤ -18 L/h`, otherwise `fill` when `Δv ≥ +6`,
otherwise `draw` when `Δv ≤ -6`, otherwise no event. -/
def classifyEv (dv rate : ℚ) : Option EvType :=
  if dv ≤ -4 ∧ rate ≤ -18 then some EvType.leak
  else if 6 ≤ dv then some EvType.fill
  else if dv ≤ -6 then some EvType.draw
  else none

/-- Appending a fresh (non-merged) event: the array `evs[8]` keeps at most 8
entries; on overflow `memmove` drops the oldest entry. -/
def pushNew (evs : List EventRec) (ty : EvType) (ts : Nat) (dv rate : ℚ) :
    List EventRec :=
  if evs.length < 8 then evs ++ [⟨ts, ty, dv, rate⟩]
  else evs.drop 1 ++ [⟨ts, ty, dv, rate⟩]

/-- Recording a classified event: when the most recent event has the same
type and ended within 15 minutes (`uint32` timestamp subtraction), merge by
extending its timestamp, summing the delta and keeping the
maximum-magnitude rate; otherwise append a fresh event. -/
def pushEvent (evs : List EventRec) (ty : EvType) (ts : Nat) (dv rate : ℚ) :
    List EventRec :=
  match evs.getLast? with
  | some last =>
    if last.ty = ty ∧ (ts + 4294967296 - last.ts) % 4294967296 ≤ 900 then
      evs.dropLast ++
        [⟨ts, ty, last.delta + dv, if |last.rate| < |rate| then rate else last.rate⟩]
    else pushNew evs ty ts dv rate
  | none => pushNew evs ty ts dv rate

/-- `if (type) { ... }`: push the pair's event if it was classified. -/
def applyClassified (evs : List EventRec) (ts : Nat) (dv rate : ℚ) :
    List EventRec :=
  match classifyEv dv rate with
  | some ty => pushEvent evs ty ts dv rate
  | none => evs

/-- Loop state of `buildRecentEvents`: previous accepted record and the
events collected so far (newest last, as in the C array). -/
structure EvState where
  havePrev : Bool
  prev : HistRecord
  evs : List EventRec

/-- One iteration of the `buildRecentEvents` loop (`webserver.h`): skip
sentinel records and NaN volumes, bootstrap/reset the previous record on
non-increasing timestamps, ignore pairs with `Δt < 30 s` or `Δt > 20 min`,
and otherwise classify and record the pair (`rate = Δv·3600/Δt`). -/
def evStep (st : EvState) (rec : HistRecord) : EvState :=
  if rec.ts = 0 ∨ ¬ 0 ≤ rec.volume then st
  else if st.havePrev = false then ⟨true, rec, st.evs⟩
  else if rec.ts ≤ st.prev.ts then ⟨st.havePrev, rec, st.evs⟩
  else
    let dt := rec.ts - st.prev.ts
    if dt < 30 ∨ 1200 < dt then ⟨st.havePrev, rec, st.evs⟩
    else
      let dv := rec.volume - st.prev.volume
      let rate := dv * 3600 / (dt : ℚ)
      ⟨st.havePrev, rec, applyClassified st.evs rec.ts dv rate⟩

/-- `buildRecentEvents` (`webserver.h`) as a function of the recent-ring read
result (newest-first, as `storageReadRecent` returns it): process the records
chronologically and return the collected events (oldest first, newest last —
the JSON serialization then reverses them). -/
def buildRecentEvents (rbuf : List HistRecord) : List EventRec :=
  (rbuf.reverse.foldl evStep ⟨false, ⟨0, 0, 0, none⟩, []⟩).evs

theorem pushNew_length (evs : List EventRec) (ty : EvType) (ts : Nat)
    (dv rate : ℚ) (h : evs.length ≤ 8) :
    (pushNew evs ty ts dv rate).length ≤ 8 := by
  unfold pushNew
  split_ifs with h8
  · simp only [List.length_append, List.length_cons, List.length_nil]
    omega
  · simp only [List.length_append, List.length_drop, List.length_cons, List.length_nil]
    omega

theorem pushEvent_length (evs : List EventRec) (ty : EvType) (ts : Nat)
    (dv rate : ℚ) (h : evs.length ≤ 8) :
    (pushEvent evs ty ts dv rate).length ≤ 8 := by
  unfold pushEvent
  cases hl : evs.getLast? with
  | none => exact pushNew_length evs ty ts dv rate h
  | some last =>
    dsimp only
    by_cases hm : last.ty = ty ∧ (ts + 4294967296 - last.ts) % 4294967296 ≤ 900
    · rw [if_pos hm]
      simp only [List.length_append, List.length_dropLast, List.length_cons,
        List.length_nil]
      omega
    · rw [if_neg hm]
      exact pushNew_length evs ty ts dv rate h

theorem applyClassified_length (evs : List EventRec) (ts : Nat) (dv rate : ℚ)
    (h : evs.length ≤ 8) : (applyClassified evs ts dv rate).length ≤ 8 := by
  unfold applyClassified
  cases classifyEv dv rate with
  | none => exact h
  | some ty => exact pushEvent_length evs ty ts dv rate h

theorem evStep_evs_length (st : EvState) (rec : HistRecord)
    (h : st.evs.length ≤ 8) : ((evStep st rec).evs).length ≤ 8 := by
  simp only [evStep]
  split_ifs <;>
    first
      | exact h
      | exact applyClassified_length _ _ _ _ h

theorem evFold_length :
    ∀ (l : List HistRecord) (st : EvState), st.evs.length ≤ 8 →
      ((l.foldl evStep st).evs).length ≤ 8
  | [], _, h => h
  | r :: rs, st, h => evFold_length rs (evStep st r) (evStep_evs_length st r h)

/-- C9. Event detection over the short-horizon log: a chronological adjacent
pair with `Δt ∈ [30 s, 1200 s]` is classified `leak` when `Δv ≤ -4` and
`rate ≤ -18 L/h`, otherwise `fill` when `Δv ≥ +6`, otherwise `draw` when
`Δv ≤ -6`, otherwise no event; a pair with `Δt` outside that range produces
no event; a consecutive same-type event within 15 minutes is merged into the
previous one by extending its timestamp, summing the delta and keeping the
maximum-magnitude rate; the event list never exceeds 8 entries and a fresh
event pushed into a full list evicts the oldest. -/
theorem c9_event_detection :
    (∀ dv rate : ℚ,
        (classifyEv dv rate = some EvType.leak ↔ dv ≤ -4 ∧ rate ≤ -18)
        ∧ (classifyEv dv rate = some EvType.fill ↔ 6 ≤ dv)
        ∧ (classifyEv dv rate = some EvType.draw ↔ dv ≤ -6 ∧ ¬ rate ≤ -18)
        ∧ (classifyEv dv rate = none ↔
            ¬ (dv ≤ -4 ∧ rate ≤ -18) ∧ ¬ 6 ≤ dv ∧ ¬ dv ≤ -6))
    ∧ (∀ (evs : List EventRec) (last : EventRec) (ty : EvType) (ts : Nat)
          (dv rate : ℚ),
        evs.getLast? = some last → last.ty = ty → last.ts ≤ ts →
        ts - last.ts ≤ 900 →
        pushEvent evs ty ts dv rate =
          evs.dropLast ++
            [⟨ts, ty, last.delta + dv,
              if |last.rate| < |rate| then rate else last.rate⟩])
    ∧ (∀ (evs : List EventRec) (ty : EvType) (ts : Nat) (dv rate : ℚ),
        evs.length = 8 →
        pushNew evs ty ts dv rate = evs.drop 1 ++ [⟨ts, ty, dv, rate⟩])
    ∧ (∀ rbuf : List HistRecord, (buildRecentEvents rbuf).length ≤ 8)
    ∧ (∀ (st : EvState) (rec : HistRecord),
        st.havePrev = true → rec.ts ≠ 0 → 0 ≤ rec.volume →
        st.prev.ts < rec.ts →
        (rec.ts - st.prev.ts < 30 ∨ 1200 < rec.ts - st.prev.ts) →
        (evStep st rec).evs = st.evs)
    ∧ (∀ (st : EvState) (rec : HistRecord),
        st.havePrev = true → rec.ts ≠ 0 → 0 ≤ rec.volume →
        st.prev.ts < rec.ts →
        30 ≤ rec.ts - st.prev.ts → rec.ts - st.prev.ts ≤ 1200 →
        (evStep st rec).evs =
          applyClassified st.evs rec.ts (rec.volume - st.prev.volume)
            ((rec.volume - st.prev.volume) * 3600
              / ((rec.ts - st.prev.ts : Nat) : ℚ))) := by
  refine ⟨?_, ?_, ?_, ?_, ?_, ?_⟩
  · intro dv rate
    unfold classifyEv
    split_ifs with h1 h2 h3
    · exact ⟨iff_of_true rfl h1,
        iff_of_false (by simp) (by linarith [h1.1]),
        iff_of_false (by simp) (fun hco => hco.2 h1.2),
        iff_of_false (by simp) (fun hco => hco.1 h1)⟩
    · exact ⟨iff_of_false (by simp) h1,
        iff_of_true rfl h2,
        iff_of_false (by simp) (fun hco => by linarith [hco.1, h2]),
        iff_of_false (by simp) (fun hco => hco.2.1 h2)⟩
    · exact ⟨iff_of_false (by simp) h1,
        iff_of_false (by simp) h2,
        iff_of_true rfl ⟨h3, fun hr => h1 ⟨by linarith, hr⟩⟩,
        iff_of_false (by simp) (fun hco => hco.2.2 h3)⟩
    · exact ⟨iff_of_false (by simp) h1,
        iff_of_false (by simp) h2,
        iff_of_false (by simp) (fun hco => h3 hco.1),
        iff_of_true rfl ⟨h1, h2, h3⟩⟩
  · intro evs last ty ts dv rate hlast hty hle hdiff
    unfold pushEvent
    rw [hlast]
    dsimp only
    rw [if_pos ⟨hty.symm ▸ rfl, by omega⟩]
  · intro evs ty ts dv rate h8
    unfold pushNew
    rw [if_neg (by omega)]
  · intro rbuf
    exact evFold_length rbuf.reverse ⟨false, ⟨0, 0, 0, none⟩, []⟩ (by simp)
  · intro st rec hp h0 hv hlt hdt
    have h1 : ¬ (rec.ts = 0 ∨ ¬ 0 ≤ rec.volume) := by simp [h0, hv]
    have h2 : ¬ (st.havePrev = false) := by simp [hp]
    unfold evStep
    rw [if_neg h1, if_neg h2, if_neg (not_le.mpr hlt)]
    dsimp only
    rw [if_pos hdt]
  · intro st rec hp h0 hv hlt h30 h1200
    have h1 : ¬ (rec.ts = 0 ∨ ¬ 0 ≤ rec.volume) := by simp [h0, hv]
    have h2 : ¬ (st.havePrev = false) := by simp [hp]
    have h3 : ¬ (rec.ts - st.prev.ts < 30 ∨ 1200 < rec.ts - st.prev.ts) := by omega
    unfold evStep
    rw [if_neg h1, if_neg h2, if_neg (not_le.mpr hlt)]
    dsimp only
    rw [if_neg h3]

theorem c9_witness :
    pushEvent [⟨100, EvType.draw, -7, -3⟩] EvType.draw 400 (-8) (-2) =
      ([⟨100, EvType.draw, -7, -3⟩] : List EventRec).dropLast ++
        [⟨400, EvType.draw,
          (⟨100, EvType.draw, -7, -3⟩ : EventRec).delta + -8,
          if |(⟨100, EvType.draw, -7, -3⟩ : EventRec).rate| < |(-2 : ℚ)|
          then (-2 : ℚ) else (⟨100, EvType.draw, -7, -3⟩ : EventRec).rate⟩] :=
  c9_event_detection.2.1 [⟨100, EvType.draw, -7, -3⟩] ⟨100, EvType.draw, -7, -3⟩
    EvType.draw 400 (-8) (-2) rfl rfl (by decide) (by decide)
